import Mathlib

/-!
Verification development for the bus1 per-peer message queue
(`queue.c`) and the peer wrapper (`peer.c`).

The queue is modelled shallowly: the rb-tree `messages` becomes a list of
node ids kept in the tree's in-order, node headers live in an association
list from ids to node records, and every operation is a pure function on
that state.  Helper functions declared in the missing header `queue.h`
(clock sync/tick, comparator, staging predicates) are modelled from the
specification and marked as such.
-/

/-- Queue node header: `timestamp_and_type` (the type tag is not used by
any of the verified paths, so the field holds the plain timestamp with the
stage bit in bit 0), `sender`, and the `kref` reference count. -/
structure Node where
  timestamp : Nat
  sender : Nat
  ref : Nat
deriving DecidableEq, Repr

/-- Default node header used for ids that were never written: unstamped,
sender 0, no references. -/
def Node.zero : Node := ⟨0, 0, 0⟩

/-- State of one `struct bus1_queue` plus the node headers it can reach:
`clock`, `msgs` (ids linked in the rb-tree, in sorted order), `front`,
the node store, and a counter of `wake_up_interruptible` calls standing in
for the wait queue. -/
structure Queue where
  clock : Nat
  msgs : List Nat
  front : Option Nat
  nodes : List (Nat × Node)
  wakes : Nat
deriving DecidableEq, Repr

/-- Look a node up in the store; ids never written behave as a fresh
zero-initialized node. -/
def lookupNode : List (Nat × Node) → Nat → Node
  | [], _ => Node.zero
  | (j, n) :: t, i => if j = i then n else lookupNode t i

/-- Update the node stored at id `i` (inserting the default if absent). -/
def updateNode : List (Nat × Node) → Nat → (Node → Node) → List (Nat × Node)
  | [], i, f => [(i, f Node.zero)]
  | (j, n) :: t, i, f => if j = i then (j, f n) :: t else (j, n) :: updateNode t i f

/-- Node header of id `i` as seen by queue `q`. -/
def Queue.node (q : Queue) (i : Nat) : Node := lookupNode q.nodes i

/-- Write a node's timestamp (`bus1_queue_node_set_timestamp`). -/
def Queue.setTs (q : Queue) (i : Nat) (ts : Nat) : Queue :=
  { q with nodes := updateNode q.nodes i (fun n => { n with timestamp := ts }) }

/-- Take a node reference (`kref_get`). -/
def Queue.addRef (q : Queue) (i : Nat) : Queue :=
  { q with nodes := updateNode q.nodes i (fun n => { n with ref := n.ref + 1 }) }

/-- Drop a node reference (`kref_put` with the no-free callback). -/
def Queue.dropRef (q : Queue) (i : Nat) : Queue :=
  { q with nodes := updateNode q.nodes i (fun n => { n with ref := n.ref - 1 }) }

/-- Modelled from the spec: the comparator `bus1_queue_compare` from the
missing header `queue.h` — total order on (timestamp, sender), timestamp
ascending then sender ascending, stage bit included in the timestamp. -/
def bus1_queue_compare (aTs aSender bTs bSender : Nat) : Int :=
  if aTs < bTs then -1
  else if bTs < aTs then 1
  else if aSender < bSender then -1
  else if bSender < aSender then 1
  else 0

/-- Comparator applied to a stored node, as in `bus1_queue_node_compare`. -/
def bus1_queue_node_compare (q : Queue) (i : Nat) (ts sender : Nat) : Int :=
  bus1_queue_compare (q.node i).timestamp (q.node i).sender ts sender

/-- Modelled from the spec: `bus1_queue_node_get_timestamp` from the missing
header `queue.h` (the timestamp part of `timestamp_and_type`). -/
def bus1_queue_node_get_timestamp (q : Queue) (i : Nat) : Nat :=
  (q.node i).timestamp

/-- Modelled from the spec: `bus1_queue_node_is_queued` from the missing
header `queue.h` — linked iff the rb node is not empty, i.e. iff the id is
in `messages`. -/
def bus1_queue_node_is_queued (q : Queue) (i : Nat) : Prop :=
  i ∈ q.msgs

instance (q : Queue) (i : Nat) : Decidable (bus1_queue_node_is_queued q i) :=
  inferInstanceAs (Decidable (i ∈ q.msgs))

/-- Modelled from the spec: `bus1_queue_node_is_staging` from the missing
header `queue.h` — the stage bit is the least significant timestamp bit. -/
def bus1_queue_node_is_staging (q : Queue) (i : Nat) : Prop :=
  (q.node i).timestamp % 2 = 1

instance (q : Queue) (i : Nat) : Decidable (bus1_queue_node_is_staging q i) :=
  inferInstanceAs (Decidable (_ = 1))

/-- Modelled from the spec: `bus1_queue_is_readable` from the missing header
`queue.h` — readable iff `front` is non-null. -/
def bus1_queue_is_readable (q : Queue) : Bool :=
  q.front.isSome

/-- Modelled from the spec: `bus1_queue_sync` from the missing header
`queue.h` — raise the clock to at least the given value rounded up to
even, and return the new clock. -/
def bus1_queue_sync (q : Queue) (timestamp : Nat) : Queue × Nat :=
  let even := if timestamp % 2 = 0 then timestamp else timestamp + 1
  let c := max q.clock even
  ({ q with clock := c }, c)

/-- Modelled from the spec: `bus1_queue_tick` from the missing header
`queue.h` — advance the clock by 2 and return the new (even) value. -/
def bus1_queue_tick (q : Queue) : Queue × Nat :=
  ({ q with clock := q.clock + 2 }, q.clock + 2)

/-- Strict order on (timestamp, sender) keys. -/
def keyLt (a b : Node) : Prop :=
  a.timestamp < b.timestamp ∨ (a.timestamp = b.timestamp ∧ a.sender < b.sender)

/-- Reflexive order on (timestamp, sender) keys. -/
def keyLe (a b : Node) : Prop :=
  a.timestamp < b.timestamp ∨ (a.timestamp = b.timestamp ∧ a.sender ≤ b.sender)

instance (a b : Node) : Decidable (keyLt a b) := by unfold keyLt; infer_instance

instance (a b : Node) : Decidable (keyLe a b) := by unfold keyLe; infer_instance

/-- Sorted insertion into the rb-tree's in-order list, following the descent
loop of `bus1_queue_add` (lines 223-241): descend left on a strictly
smaller key, right otherwise, so equal keys land after existing ones.
The comparator reads the ambient store `q`, where the inserted node already
carries its new timestamp. -/
def bus1_queue_insert (q : Queue) (i : Nat) : List Nat → List Nat
  | [] => [i]
  | j :: t =>
      if bus1_queue_node_compare q i (q.node j).timestamp (q.node j).sender < 0 then
        i :: j :: t
      else
        j :: bus1_queue_insert q i t

/-- Front-uncovering step of `bus1_queue_add` (lines 187-212): with no
current front, a linked node that is the first entry may, by moving to a
higher timestamp, uncover a committed successor with a smaller key; that
successor becomes the new front.  With a current front the branch only
asserts. -/
def addUncoverFront (q : Queue) (i : Nat) (timestamp : Nat) : Queue :=
  match q.front with
  | some _ => q
  | none =>
      match q.msgs with
      | j :: k :: _ =>
          if j = i ∧ ¬ bus1_queue_node_is_staging q k ∧
             bus1_queue_node_compare q k timestamp (q.node i).sender < 0 then
            { q with front := some k }
          else q
      | _ => q

/-- Erase/ref and re-stamp steps of `bus1_queue_add` (lines 214-220): an
unlinked node gains a queue reference, a linked one is erased from the
tree; then the node is stamped with the new timestamp. -/
def restampBase (q : Queue) (i : Nat) (timestamp : Nat) : Queue :=
  (if i ∈ q.msgs then { q with msgs := q.msgs.erase i } else q.addRef i).setTs i timestamp

/-- Re-insert step of `bus1_queue_add` (lines 214-244): after the erase/ref
and re-stamp of `restampBase`, the node is re-inserted into the sorted
tree; if the new timestamp is even and the node landed leftmost it becomes
the front. -/
def addInsert (q : Queue) (i : Nat) (timestamp : Nat) : Queue :=
  let q2 := restampBase q i timestamp
  let newMsgs := bus1_queue_insert q2 i q2.msgs
  if timestamp % 2 = 0 ∧ newMsgs.head? = some i then
    { q2 with msgs := newMsgs, front := some i }
  else { q2 with msgs := newMsgs }

/-- Wake-up step shared by `bus1_queue_add` and `bus1_queue_remove`: wake
the wait queue iff the queue became readable. -/
def addWake (readable : Bool) (q : Queue) : Queue :=
  if ¬ readable ∧ bus1_queue_is_readable q then { q with wakes := q.wakes + 1 }
  else q

/-- The `bus1_queue_add` worker (lines 153-248).  The four leading `WARN_ON`
guards abort the operation leaving the queue untouched: invalid timestamp,
stamped/linked mismatch, a stamped node that is not a valid earlier staging
entry, and the no-op case. -/
def bus1_queue_add (q : Queue) (i : Nat) (timestamp : Nat) : Queue :=
  let ts := (q.node i).timestamp
  if timestamp = 0 ∨ q.clock + 1 < timestamp then q
  else if (ts = 0) ↔ (i ∈ q.msgs) then q
  else if ts ≠ 0 ∧ (¬ ts % 2 = 1 ∨ timestamp < ts) then q
  else if ts = timestamp then q
  else addWake (bus1_queue_is_readable q) (addInsert (addUncoverFront q i timestamp) i timestamp)

/-- `bus1_queue_stage` (lines 269-282): sync the clock on the caller's even
timestamp, link the node at the odd stage timestamp clock+1, and return the
even clock value. -/
def bus1_queue_stage (q : Queue) (i : Nat) (timestamp : Nat) : Queue × Nat :=
  let s := bus1_queue_sync q timestamp
  (bus1_queue_add s.1 i (s.2 + 1), s.2)

/-- `bus1_queue_commit_staged` (lines 306-321): if the node is still linked,
re-stamp it via `bus1_queue_add` and report true, otherwise report false. -/
def bus1_queue_commit_staged (q : Queue) (i : Nat) (timestamp : Nat) : Queue × Bool :=
  if bus1_queue_node_is_queued q i then (bus1_queue_add q i timestamp, true)
  else (q, false)

/-- `bus1_queue_commit_unstaged` (lines 337-344): tick the clock and commit
the node directly, unless it is already queued. -/
def bus1_queue_commit_unstaged (q : Queue) (i : Nat) : Queue :=
  if bus1_queue_node_is_queued q i then q
  else
    let t := bus1_queue_tick q
    bus1_queue_add t.1 i t.2

/-- `bus1_queue_remove` (lines 365-411): null and unlinked nodes are
ignored; removing the first entry recomputes the front from its successor
(committed successor becomes front, staged successor resets it); the entry
is erased and the queue reference dropped, waking readers if the queue
became readable. -/
def bus1_queue_remove (q : Queue) (node : Option Nat) : Queue × Bool :=
  match node with
  | none => (q, false)
  | some i =>
      if i ∈ q.msgs then
        let readable := bus1_queue_is_readable q
        let q1 :=
          if q.msgs.head? = some i then
            { q with front :=
                match q.msgs with
                | _ :: k :: _ =>
                    if bus1_queue_node_is_staging q k then none else some k
                | _ => none }
          else q
        let q2 := { q1 with msgs := q1.msgs.erase i }
        let q3 := q2.dropRef i
        (addWake readable q3, true)
      else (q, false)

/-- `bus1_queue_flush` (lines 117-151): staged entries are unlinked in place
and the queue reference is dropped; committed entries keep their reference
and are handed to the caller on the flush list; messages and front are
reset. -/
def bus1_queue_flush (q : Queue) : Queue × List Nat :=
  let staged := q.msgs.filter (fun i => decide (bus1_queue_node_is_staging q i))
  let out := q.msgs.filter (fun i => decide (¬ bus1_queue_node_is_staging q i))
  ({ q with
      msgs := [],
      front := none,
      nodes := staged.foldl (fun ns i =>
        updateNode ns i (fun n => { n with ref := n.ref - 1 })) q.nodes },
   out)

/-- In-order successor of the first occurrence of `i`, i.e. `rb_next`. -/
def listNext : List Nat → Nat → Option Nat
  | [], _ => none
  | j :: t, i => if j = i then t.head? else listNext t i

/-- `bus1_queue_peek_locked` (lines 433-460): null front yields null and the
continuation output is untouched; otherwise the front node is returned with
an extra reference and the continuation output records whether the next
entry carries the same (timestamp, sender) key. -/
def bus1_queue_peek_locked (q : Queue) (contIn : Bool) : Option Nat × Bool × Queue :=
  match q.front with
  | none => (none, contIn, q)
  | some i =>
      let q1 := q.addRef i
      let cont : Bool :=
        match listNext q1.msgs i with
        | some j =>
            decide (bus1_queue_node_compare q1 i (q1.node j).timestamp (q1.node j).sender = 0)
        | none => false
      (some i, cont, q1)

/-- `bus1_queue_init` (lines 76-83): fresh clock, empty tree, null front. -/
def bus1_queue_init (q : Queue) : Queue :=
  { q with clock := 0, msgs := [], front := none }

/-- Well-formedness of a queue state, matching the data-model invariants of
the spec: distinct linked ids, in-order sortedness of the tree, the front
(when set) is the committed first entry, an even clock, linked nodes are
stamped, and committed timestamps never exceed the clock. -/
structure QueueInv (q : Queue) : Prop where
  nodup : q.msgs.Nodup
  sorted : q.msgs.Pairwise (fun a b => keyLe (q.node a) (q.node b))
  frontOk : ∀ f, q.front = some f →
    q.msgs.head? = some f ∧ (q.node f).timestamp % 2 = 0
  clockEven : q.clock % 2 = 0
  stamped : ∀ i ∈ q.msgs, (q.node i).timestamp ≠ 0
  committedLe : ∀ i ∈ q.msgs, (q.node i).timestamp % 2 = 0 →
    (q.node i).timestamp ≤ q.clock

/-- The queue operations named by the spec's invariant section, acting on a
designated queue. -/
inductive QOp where
  | stage (i ts : Nat)
  | commitStaged (i ts : Nat)
  | commitUnstaged (i : Nat)
  | remove (n : Option Nat)
  | flush
deriving DecidableEq, Repr

/-- Apply one queue operation, discarding auxiliary results. -/
def applyQOp (q : Queue) : QOp → Queue
  | .stage i ts => (bus1_queue_stage q i ts).1
  | .commitStaged i ts => (bus1_queue_commit_staged q i ts).1
  | .commitUnstaged i => bus1_queue_commit_unstaged q i
  | .remove n => (bus1_queue_remove q n).1
  | .flush => (bus1_queue_flush q).1

/-- Apply a sequence of queue operations. -/
def applyQOps (q : Queue) (ops : List QOp) : Queue :=
  ops.foldl applyQOp q

/-- Documented precondition of `bus1_queue_commit_staged`: the caller
provides an even commit timestamp (`WARN_ON(timestamp & 1)`). -/
def QOpPre : QOp → Prop
  | .commitStaged _ ts => ts % 2 = 0
  | _ => True

instance (op : QOp) : Decidable (QOpPre op) := by
  cases op <;> simp only [QOpPre] <;> infer_instance

/-- Errno values used by the verified peer paths. -/
inductive Errno where
  | ok
  | einval
  | enotconn
  | eisconn
  | eshutdown
  | emsgsize
  | eagain
  | efault
deriving DecidableEq, Repr

/-- Modelled from the spec: the `bus1_active` lifecycle counter from the
missing `active.h` — a peer is new, active (connected), or deactivated. -/
inductive ActiveState where
  | fresh
  | active
  | deactivated
deriving DecidableEq, Repr

/-- Pool state of a connected peer; `size` is fixed at connect time,
`used` abstracts the allocated slices (`bus1_pool_flush` resets them). -/
structure Pool where
  size : Nat
  used : Nat
deriving DecidableEq, Repr

/-- `struct bus1_peer_info`: the fields the verified paths touch. -/
structure PeerInfo where
  pool : Pool
  queue : Queue
deriving DecidableEq, Repr

/-- `struct bus1_peer`: lifecycle state plus the rcu-published info. -/
structure Peer where
  active : ActiveState
  info : Option PeerInfo
deriving DecidableEq, Repr

/-- Modelled from the spec: the connect flags of the uapi header
(client, monitor, query, reset); `other` stands for any bit outside the
four named ones. -/
structure ConnectFlags where
  client : Bool
  monitor : Bool
  query : Bool
  reset : Bool
  other : Bool
deriving DecidableEq, Repr

/-- `struct bus1_cmd_connect`: flags plus the pool-size parameter (which is
also the output slot for query/reset). -/
structure ConnectParam where
  flags : ConnectFlags
  pool_size : Nat
deriving DecidableEq, Repr

/-- Modelled from the spec: PAGE_SIZE of the target architecture. -/
def PAGE_SIZE : Nat := 4096

/-- `bus1_peer_info_reset` (peer.c lines 34-56): drain the queue (committed
entries freed, staged entries unlinked) and flush the pool. -/
def bus1_peer_info_reset (pi : PeerInfo) : PeerInfo :=
  { pi with
      queue := { pi.queue with msgs := [], front := none },
      pool := { pi.pool with used := 0 } }

/-- `bus1_peer_info_new` (peer.c lines 84-132): reject a zero or unaligned
pool size, otherwise build a fresh peer-info (allocation failures are not
modelled). -/
def bus1_peer_info_new (param : ConnectParam) : Except Errno PeerInfo :=
  if param.pool_size = 0 ∨ ¬ param.pool_size % PAGE_SIZE = 0 then
    Except.error Errno.einval
  else
    Except.ok ⟨⟨param.pool_size, 0⟩, ⟨0, [], none, [], 0⟩⟩

/-- `bus1_peer_connect_new` (peer.c lines 225-266): allocate the info, then
under the borrowed waitq lock publish it and activate the peer; a
deactivated peer yields shutdown and a connected one already-connected. -/
def bus1_peer_connect_new (peer : Peer) (param : ConnectParam) :
    Errno × Peer × Nat :=
  match bus1_peer_info_new param with
  | Except.error e => (e, peer, param.pool_size)
  | Except.ok pi =>
      if peer.active = ActiveState.deactivated then
        (Errno.eshutdown, peer, param.pool_size)
      else if peer.info.isSome then
        (Errno.eisconn, peer, param.pool_size)
      else if peer.active = ActiveState.fresh then
        (Errno.ok, ⟨ActiveState.active, some pi⟩, param.pool_size)
      else
        (Errno.eshutdown, peer, param.pool_size)

/-- `bus1_peer_connect_reset` (peer.c lines 268-287): a new peer is not
connected, a nonzero pool size is invalid; otherwise acquire the active
peer, report its pool size through the parameter and reset its info. -/
def bus1_peer_connect_reset (peer : Peer) (param : ConnectParam) :
    Errno × Peer × Nat :=
  if peer.active = ActiveState.fresh then (Errno.enotconn, peer, param.pool_size)
  else if ¬ param.pool_size = 0 then (Errno.einval, peer, param.pool_size)
  else if ¬ peer.active = ActiveState.active then
    (Errno.eshutdown, peer, param.pool_size)
  else
    match peer.info with
    | none => (Errno.eshutdown, peer, param.pool_size)
    | some pi =>
        (Errno.ok, ⟨peer.active, some (bus1_peer_info_reset pi)⟩, pi.pool.size)

/-- `bus1_peer_connect_query` (peer.c lines 289-309): a new peer is not
connected, a nonzero pool size is invalid; otherwise report the pool size
of the published info, or shutdown if it is gone. -/
def bus1_peer_connect_query (peer : Peer) (param : ConnectParam) :
    Errno × Peer × Nat :=
  if peer.active = ActiveState.fresh then (Errno.enotconn, peer, param.pool_size)
  else if ¬ param.pool_size = 0 then (Errno.einval, peer, param.pool_size)
  else
    match peer.info with
    | none => (Errno.eshutdown, peer, param.pool_size)
    | some pi => (Errno.ok, peer, pi.pool.size)

/-- `bus1_peer_connect` (peer.c lines 325-351): reject unknown flags (the
monitor flag is compiled out of the valid mask), reject more than one of
client/monitor/reset, then dispatch on client/monitor, reset, query, and
fall through to invalid-argument when no mode is named.  The result carries
the errno, the peer, and the value left in the pool-size parameter. -/
def bus1_peer_connect (peer : Peer) (param : ConnectParam) :
    Errno × Peer × Nat :=
  let f := param.flags
  if f.monitor ∨ f.other then (Errno.einval, peer, param.pool_size)
  else if 1 < (if f.client then 1 else 0) + (if f.monitor then 1 else 0) +
      (if f.reset then 1 else 0) then (Errno.einval, peer, param.pool_size)
  else if f.client ∨ f.monitor then bus1_peer_connect_new peer param
  else if f.reset then bus1_peer_connect_reset peer param
  else if f.query then bus1_peer_connect_query peer param
  else (Errno.einval, peer, param.pool_size)

/-- Modelled from the spec: the send limits BUS1_VEC_MAX and BUS1_FD_MAX of
the missing uapi header (their concrete values are immaterial to the
verified properties). -/
def BUS1_VEC_MAX : Nat := 512

/-- Modelled from the spec: see BUS1_VEC_MAX. -/
def BUS1_FD_MAX : Nat := 256

/-- `struct bus1_cmd_send`: the fields checked by the early argument
validation of `bus1_peer_ioctl_send`. -/
structure SendParam where
  flagContinue : Bool
  flagSilent : Bool
  flagRelease : Bool
  flagOther : Bool
  n_vecs : Nat
  n_fds : Nat
  n_destinations : Nat
  ptrsValid : Bool
deriving DecidableEq, Repr

/-- Early argument validation of `bus1_peer_ioctl_send` (peer.c lines
385-408), performed before the transaction is created: unknown flags are
invalid-argument, oversized vector/fd counts are message-too-long, and
truncated user pointers fault. -/
def bus1_peer_ioctl_send_check (p : SendParam) : Option Errno :=
  if p.flagOther then some Errno.einval
  else if BUS1_VEC_MAX < p.n_vecs ∨ BUS1_FD_MAX < p.n_fds then some Errno.emsgsize
  else if ¬ p.ptrsValid then some Errno.efault
  else none

/-- Modelled from the spec: `bus1_peer_ioctl_send` on a destination queue.
The early checks are from peer.c; a send that passes them commits to the
destination (the unicast fastpath, §4.4 of the spec), which is all the
error-path claims need. -/
def bus1_peer_ioctl_send (q : Queue) (p : SendParam) (dest : Nat) : Errno × Queue :=
  match bus1_peer_ioctl_send_check p with
  | some e => (e, q)
  | none => (Errno.ok, bus1_queue_commit_unstaged q dest)

theorem lookupNode_updateNode_self (ns : List (Nat × Node)) (i : Nat) (f : Node → Node) :
    lookupNode (updateNode ns i f) i = f (lookupNode ns i) := by
  induction ns with
  | nil => simp [lookupNode, updateNode]
  | cons p t ih =>
      obtain ⟨j, n⟩ := p
      by_cases h : j = i
      · simp [lookupNode, updateNode, h]
      · simp [lookupNode, updateNode, h, ih]

theorem lookupNode_updateNode_other (ns : List (Nat × Node)) (i j : Nat) (f : Node → Node)
    (h : j ≠ i) : lookupNode (updateNode ns i f) j = lookupNode ns j := by
  have h' : i ≠ j := fun hh => h hh.symm
  induction ns with
  | nil => simp [lookupNode, updateNode, h']
  | cons p t ih =>
      obtain ⟨k, n⟩ := p
      by_cases hk : k = i
      · subst hk
        simp [lookupNode, updateNode, h', h]
      · by_cases hkj : k = j <;> simp [lookupNode, updateNode, hk, hkj, ih, h]

theorem compare_lt_iff (aTs aSender bTs bSender : Nat) :
    bus1_queue_compare aTs aSender bTs bSender < 0 ↔
      keyLt ⟨aTs, aSender, 0⟩ ⟨bTs, bSender, 0⟩ := by
  unfold bus1_queue_compare keyLt
  split_ifs <;> simp <;> omega

theorem compare_eq_zero_iff (aTs aSender bTs bSender : Nat) :
    bus1_queue_compare aTs aSender bTs bSender = 0 ↔
      (aTs = bTs ∧ aSender = bSender) := by
  unfold bus1_queue_compare
  split_ifs <;> simp <;> omega

theorem not_compare_lt_iff (aTs aSender bTs bSender : Nat) :
    ¬ bus1_queue_compare aTs aSender bTs bSender < 0 ↔
      keyLe ⟨bTs, bSender, 0⟩ ⟨aTs, aSender, 0⟩ := by
  unfold bus1_queue_compare keyLe
  split_ifs <;> simp <;> omega

theorem keyLt_irrefl_of_le {a b : Node} (h : keyLe a b) : ¬ keyLt b a := by
  unfold keyLe at h; unfold keyLt; omega

theorem keyLe_of_not_keyLt {a b : Node} (h : ¬ keyLt a b) : keyLe b a := by
  unfold keyLt at h; unfold keyLe; omega

theorem keyLe_trans {a b c : Node} (h1 : keyLe a b) (h2 : keyLe b c) : keyLe a c := by
  unfold keyLe at *; omega

theorem keyLt_le_trans {a b c : Node} (h1 : keyLt a b) (h2 : keyLe b c) : keyLt a c := by
  unfold keyLt at *; unfold keyLe at h2; omega

theorem keyLt_of_keyLt {a b : Node} (h : keyLt a b) : keyLe a b := by
  unfold keyLt at h; unfold keyLe; omega

/-- Key comparisons only look at timestamp and sender, never the ref. -/
theorem keyLe_congr {a a' b b' : Node} (hts : a.timestamp = a'.timestamp)
    (hs : a.sender = a'.sender) (hts2 : b.timestamp = b'.timestamp)
    (hs2 : b.sender = b'.sender) : keyLe a b ↔ keyLe a' b' := by
  unfold keyLe; rw [hts, hs, hts2, hs2]

theorem node_compare_lt_iff (q : Queue) (i : Nat) (ts sender : Nat) :
    bus1_queue_node_compare q i ts sender < 0 ↔
      keyLt (q.node i) ⟨ts, sender, 0⟩ := by
  unfold bus1_queue_node_compare bus1_queue_compare keyLt
  split_ifs <;> simp <;> omega

theorem node_compare_lt_iff' (q : Queue) (i j : Nat) :
    bus1_queue_node_compare q i (q.node j).timestamp (q.node j).sender < 0 ↔
      keyLt (q.node i) (q.node j) := by
  rw [node_compare_lt_iff]
  unfold keyLt
  simp

theorem node_compare_eq_zero_iff (q : Queue) (i j : Nat) :
    bus1_queue_node_compare q i (q.node j).timestamp (q.node j).sender = 0 ↔
      ((q.node i).timestamp = (q.node j).timestamp ∧
       (q.node i).sender = (q.node j).sender) := by
  unfold bus1_queue_node_compare
  exact compare_eq_zero_iff _ _ _ _

@[simp] theorem setTs_msgs (q : Queue) (i ts : Nat) : (q.setTs i ts).msgs = q.msgs := rfl

@[simp] theorem setTs_clock (q : Queue) (i ts : Nat) : (q.setTs i ts).clock = q.clock := rfl

@[simp] theorem setTs_front (q : Queue) (i ts : Nat) : (q.setTs i ts).front = q.front := rfl

@[simp] theorem addRef_msgs (q : Queue) (i : Nat) : (q.addRef i).msgs = q.msgs := rfl

@[simp] theorem addRef_clock (q : Queue) (i : Nat) : (q.addRef i).clock = q.clock := rfl

@[simp] theorem addRef_front (q : Queue) (i : Nat) : (q.addRef i).front = q.front := rfl

@[simp] theorem dropRef_msgs (q : Queue) (i : Nat) : (q.dropRef i).msgs = q.msgs := rfl

@[simp] theorem dropRef_clock (q : Queue) (i : Nat) : (q.dropRef i).clock = q.clock := rfl

@[simp] theorem dropRef_front (q : Queue) (i : Nat) : (q.dropRef i).front = q.front := rfl

theorem setTs_node_self (q : Queue) (i ts : Nat) :
    (q.setTs i ts).node i = { q.node i with timestamp := ts } := by
  unfold Queue.setTs Queue.node
  exact lookupNode_updateNode_self _ _ _

theorem setTs_node_other (q : Queue) (i j ts : Nat) (h : j ≠ i) :
    (q.setTs i ts).node j = q.node j := by
  unfold Queue.setTs Queue.node
  exact lookupNode_updateNode_other _ _ _ _ h

theorem addRef_node_self (q : Queue) (i : Nat) :
    (q.addRef i).node i = { q.node i with ref := (q.node i).ref + 1 } := by
  unfold Queue.addRef Queue.node
  exact lookupNode_updateNode_self _ _ _

theorem addRef_node_other (q : Queue) (i j : Nat) (h : j ≠ i) :
    (q.addRef i).node j = q.node j := by
  unfold Queue.addRef Queue.node
  exact lookupNode_updateNode_other _ _ _ _ h

theorem addRef_node_timestamp (q : Queue) (i j : Nat) :
    ((q.addRef i).node j).timestamp = (q.node j).timestamp := by
  by_cases h : j = i
  · subst h; rw [addRef_node_self]
  · rw [addRef_node_other _ _ _ h]

theorem addRef_node_sender (q : Queue) (i j : Nat) :
    ((q.addRef i).node j).sender = (q.node j).sender := by
  by_cases h : j = i
  · subst h; rw [addRef_node_self]
  · rw [addRef_node_other _ _ _ h]

theorem dropRef_node_self (q : Queue) (i : Nat) :
    (q.dropRef i).node i = { q.node i with ref := (q.node i).ref - 1 } := by
  unfold Queue.dropRef Queue.node
  exact lookupNode_updateNode_self _ _ _

theorem dropRef_node_other (q : Queue) (i j : Nat) (h : j ≠ i) :
    (q.dropRef i).node j = q.node j := by
  unfold Queue.dropRef Queue.node
  exact lookupNode_updateNode_other _ _ _ _ h

theorem dropRef_node_timestamp (q : Queue) (i j : Nat) :
    ((q.dropRef i).node j).timestamp = (q.node j).timestamp := by
  by_cases h : j = i
  · subst h; rw [dropRef_node_self]
  · rw [dropRef_node_other _ _ _ h]

theorem dropRef_node_sender (q : Queue) (i j : Nat) :
    ((q.dropRef i).node j).sender = (q.node j).sender := by
  by_cases h : j = i
  · subst h; rw [dropRef_node_self]
  · rw [dropRef_node_other _ _ _ h]

theorem insert_perm (q : Queue) (i : Nat) (l : List Nat) :
    (bus1_queue_insert q i l).Perm (i :: l) := by
  induction l with
  | nil => simp [bus1_queue_insert]
  | cons j t ih =>
      unfold bus1_queue_insert
      split_ifs
      · exact List.Perm.refl _
      · exact (List.Perm.cons j ih).trans (List.Perm.swap i j t)

theorem mem_insert_iff (q : Queue) (i a : Nat) (l : List Nat) :
    a ∈ bus1_queue_insert q i l ↔ a = i ∨ a ∈ l := by
  rw [(insert_perm q i l).mem_iff]
  simp

theorem insert_nodup (q : Queue) (i : Nat) (l : List Nat)
    (h : l.Nodup) (hi : i ∉ l) : (bus1_queue_insert q i l).Nodup := by
  exact (insert_perm q i l).nodup_iff.mpr (List.nodup_cons.mpr ⟨hi, h⟩)

theorem insert_sorted (q : Queue) (i : Nat) (l : List Nat)
    (h : l.Pairwise (fun a b => keyLe (q.node a) (q.node b))) :
    (bus1_queue_insert q i l).Pairwise (fun a b => keyLe (q.node a) (q.node b)) := by
  induction l with
  | nil => simp [bus1_queue_insert]
  | cons j t ih =>
      rw [List.pairwise_cons] at h
      obtain ⟨hj, ht⟩ := h
      unfold bus1_queue_insert
      split_ifs with hc
      · rw [node_compare_lt_iff'] at hc
        refine List.pairwise_cons.mpr ⟨?_, List.pairwise_cons.mpr ⟨hj, ht⟩⟩
        intro b hb
        rcases List.mem_cons.mp hb with hb | hb
        · subst hb; exact keyLt_of_keyLt hc
        · exact keyLt_of_keyLt (keyLt_le_trans hc (hj b hb))
      · rw [node_compare_lt_iff'] at hc
        refine List.pairwise_cons.mpr ⟨?_, ih ht⟩
        intro b hb
        rcases (mem_insert_iff q i b t).mp hb with hb | hb
        · subst hb; exact keyLe_of_not_keyLt hc
        · exact hj b hb

theorem insert_head_or (q : Queue) (i : Nat) (l : List Nat) :
    (bus1_queue_insert q i l).head? = some i ∨
      (bus1_queue_insert q i l).head? = l.head? := by
  cases l with
  | nil => left; rfl
  | cons j t =>
      unfold bus1_queue_insert
      split_ifs
      · left; rfl
      · right; rfl

theorem insert_head_of_not_lt (q : Queue) (i j : Nat) (l : List Nat)
    (hh : l.head? = some j) (h : ¬ keyLt (q.node i) (q.node j)) :
    (bus1_queue_insert q i l).head? = some j := by
  cases l with
  | nil => simp at hh
  | cons a t =>
      simp only [List.head?_cons, Option.some.injEq] at hh
      subst hh
      unfold bus1_queue_insert
      rw [if_neg]
      · rfl
      · rw [node_compare_lt_iff']
        exact h

theorem head?_erase_of_ne (l : List Nat) (f i : Nat)
    (hh : l.head? = some f) (h : f ≠ i) : (l.erase i).head? = some f := by
  cases l with
  | nil => simp at hh
  | cons a t =>
      simp only [List.head?_cons, Option.some.injEq] at hh
      subst hh
      rw [List.erase_cons_tail]
      · rfl
      · simp [h]

theorem keyLe_refl (a : Node) : keyLe a a := by unfold keyLe; omega

theorem keyLt_congr {a a' b b' : Node} (hts : a.timestamp = a'.timestamp)
    (hs : a.sender = a'.sender) (hts2 : b.timestamp = b'.timestamp)
    (hs2 : b.sender = b'.sender) : keyLt a b ↔ keyLt a' b' := by
  unfold keyLt; rw [hts, hs, hts2, hs2]

@[simp] theorem addWake_msgs (r : Bool) (q : Queue) : (addWake r q).msgs = q.msgs := by
  unfold addWake; split_ifs <;> rfl

@[simp] theorem addWake_clock (r : Bool) (q : Queue) : (addWake r q).clock = q.clock := by
  unfold addWake; split_ifs <;> rfl

@[simp] theorem addWake_front (r : Bool) (q : Queue) : (addWake r q).front = q.front := by
  unfold addWake; split_ifs <;> rfl

@[simp] theorem addWake_nodes (r : Bool) (q : Queue) : (addWake r q).nodes = q.nodes := by
  unfold addWake; split_ifs <;> rfl

@[simp] theorem addWake_node (r : Bool) (q : Queue) (a : Nat) :
    (addWake r q).node a = q.node a := by
  unfold Queue.node; rw [addWake_nodes]

@[simp] theorem addUncoverFront_msgs (q : Queue) (i t : Nat) :
    (addUncoverFront q i t).msgs = q.msgs := by
  unfold addUncoverFront
  split
  · rfl
  · split
    · split_ifs <;> rfl
    · rfl

@[simp] theorem addUncoverFront_clock (q : Queue) (i t : Nat) :
    (addUncoverFront q i t).clock = q.clock := by
  unfold addUncoverFront
  split
  · rfl
  · split
    · split_ifs <;> rfl
    · rfl

@[simp] theorem addUncoverFront_nodes (q : Queue) (i t : Nat) :
    (addUncoverFront q i t).nodes = q.nodes := by
  unfold addUncoverFront
  split
  · rfl
  · split
    · split_ifs <;> rfl
    · rfl

@[simp] theorem addUncoverFront_node (q : Queue) (i t a : Nat) :
    (addUncoverFront q i t).node a = q.node a := by
  unfold Queue.node; rw [addUncoverFront_nodes]

/-- Case analysis for the front-uncovering step: either the state is left
untouched, or (with no front) the linked first entry `i` uncovers a
committed second entry with a key below the new timestamp. -/
theorem addUncoverFront_cases (q : Queue) (i timestamp : Nat) :
    addUncoverFront q i timestamp = q ∨
    (q.front = none ∧ ∃ k rest, q.msgs = i :: k :: rest ∧
      (q.node k).timestamp % 2 = 0 ∧
      keyLt (q.node k) ⟨timestamp, (q.node i).sender, 0⟩ ∧
      addUncoverFront q i timestamp = { q with front := some k }) := by
  unfold addUncoverFront
  split
  · left; rfl
  · next hfront =>
      split
      · next j k rest hmsgs =>
          split_ifs with hc
          · right
            obtain ⟨hji, hst, hcmp⟩ := hc
            subst hji
            refine ⟨hfront, k, rest, hmsgs, ?_, ?_, rfl⟩
            · unfold bus1_queue_node_is_staging at hst
              omega
            · rw [node_compare_lt_iff] at hcmp
              exact hcmp
          · left; rfl
      · left; rfl

@[simp] theorem restampBase_clock (q : Queue) (i t : Nat) :
    (restampBase q i t).clock = q.clock := by
  unfold restampBase; split_ifs <;> rfl

@[simp] theorem restampBase_front (q : Queue) (i t : Nat) :
    (restampBase q i t).front = q.front := by
  unfold restampBase; split_ifs <;> rfl

theorem restampBase_msgs (q : Queue) (i t : Nat) :
    (restampBase q i t).msgs = if i ∈ q.msgs then q.msgs.erase i else q.msgs := by
  unfold restampBase; split_ifs <;> rfl

theorem restampBase_node_ts (q : Queue) (i t : Nat) :
    ((restampBase q i t).node i).timestamp = t := by
  unfold restampBase
  split_ifs <;> rw [setTs_node_self]

theorem restampBase_node_sender (q : Queue) (i t : Nat) :
    ((restampBase q i t).node i).sender = (q.node i).sender := by
  unfold restampBase
  split_ifs with h
  · rw [setTs_node_self]; rfl
  · rw [setTs_node_self]
    simp [addRef_node_sender]

theorem restampBase_node_other (q : Queue) (i j t : Nat) (h : j ≠ i) :
    (restampBase q i t).node j = q.node j := by
  unfold restampBase
  split_ifs with hm
  · rw [setTs_node_other _ _ _ _ h]; rfl
  · rw [setTs_node_other _ _ _ _ h, addRef_node_other _ _ _ h]

theorem restampBase_node_ref (q : Queue) (i t : Nat) :
    ((restampBase q i t).node i).ref =
      if i ∈ q.msgs then (q.node i).ref else (q.node i).ref + 1 := by
  unfold restampBase
  split_ifs with h
  · rw [setTs_node_self]; rfl
  · rw [setTs_node_self]
    simp [addRef_node_self]

theorem restampBase_not_mem (q : Queue) (i t : Nat) (h : q.msgs.Nodup) :
    i ∉ (restampBase q i t).msgs := by
  rw [restampBase_msgs]
  split_ifs with hm
  · exact fun hc => absurd ((h.mem_erase_iff).mp hc).1 (by simp)
  · exact hm

theorem restampBase_msgs_nodup (q : Queue) (i t : Nat) (h : q.msgs.Nodup) :
    (restampBase q i t).msgs.Nodup := by
  rw [restampBase_msgs]
  split_ifs with hm
  · exact h.erase i
  · exact h

theorem restampBase_msgs_sublist (q : Queue) (i t : Nat) :
    (restampBase q i t).msgs.Sublist q.msgs := by
  rw [restampBase_msgs]
  split_ifs with hm
  · exact q.msgs.erase_sublist i
  · exact List.Sublist.refl _

theorem restampBase_msgs_sorted (q : Queue) (i t : Nat)
    (h : q.msgs.Pairwise (fun a b => keyLe (q.node a) (q.node b)))
    (hn : q.msgs.Nodup) :
    (restampBase q i t).msgs.Pairwise
      (fun a b => keyLe ((restampBase q i t).node a) ((restampBase q i t).node b)) := by
  have hsub := restampBase_msgs_sublist q i t
  have hni := restampBase_not_mem q i t hn
  have h2 := h.sublist hsub
  refine List.Pairwise.imp_of_mem ?_ h2
  intro a b ha hb hab
  rwa [restampBase_node_other q i a t (fun hc => hni (hc ▸ ha)),
       restampBase_node_other q i b t (fun hc => hni (hc ▸ hb))]

theorem mem_of_head? {l : List Nat} {a : Nat} (h : l.head? = some a) : a ∈ l := by
  cases l with
  | nil => simp at h
  | cons b t =>
      simp only [List.head?_cons, Option.some.injEq] at h
      subst h
      simp

theorem addWake_inv (r : Bool) (q : Queue) (h : QueueInv q) : QueueInv (addWake r q) := by
  unfold addWake
  split_ifs
  · exact ⟨h.nodup, h.sorted, h.frontOk, h.clockEven, h.stamped, h.committedLe⟩
  · exact h

/-- Invariant preservation through the erase/re-stamp/re-insert step, with
explicit preconditions about the pending front. -/
theorem addInsert_inv (q : Queue) (i timestamp : Nat)
    (hnodup : q.msgs.Nodup)
    (hsorted : q.msgs.Pairwise (fun a b => keyLe (q.node a) (q.node b)))
    (hfront : ∀ f, q.front = some f → f ≠ i ∧ (q.node f).timestamp % 2 = 0 ∧
      (restampBase q i timestamp).msgs.head? = some f ∧
      (timestamp % 2 = 1 → keyLe (q.node f) ⟨timestamp, (q.node i).sender, 0⟩))
    (hclockEven : q.clock % 2 = 0)
    (hstamped : ∀ a ∈ q.msgs, (q.node a).timestamp ≠ 0)
    (hcommLe : ∀ a ∈ q.msgs, (q.node a).timestamp % 2 = 0 → (q.node a).timestamp ≤ q.clock)
    (ht0 : timestamp ≠ 0) (htle : timestamp ≤ q.clock + 1) :
    QueueInv (addInsert q i timestamp) := by
  have hbts := restampBase_node_ts q i timestamp
  have hlsub := restampBase_msgs_sublist q i timestamp
  have hni := restampBase_not_mem q i timestamp hnodup
  have hlnodup := restampBase_msgs_nodup q i timestamp hnodup
  have hlsorted := restampBase_msgs_sorted q i timestamp hsorted hnodup
  have hmnodup := insert_nodup (restampBase q i timestamp) i
    (restampBase q i timestamp).msgs hlnodup hni
  have hmsorted := insert_sorted (restampBase q i timestamp) i
    (restampBase q i timestamp).msgs hlsorted
  have hmem : ∀ a, a ∈ bus1_queue_insert (restampBase q i timestamp) i
      (restampBase q i timestamp).msgs → a = i ∨ a ∈ q.msgs := by
    intro a ha
    rcases (mem_insert_iff _ i a _).mp ha with h | h
    · exact Or.inl h
    · exact Or.inr (hlsub.subset h)
  have hstamped' : ∀ a ∈ bus1_queue_insert (restampBase q i timestamp) i
      (restampBase q i timestamp).msgs,
      ((restampBase q i timestamp).node a).timestamp ≠ 0 := by
    intro a ha
    rcases (mem_insert_iff _ i a _).mp ha with h | h
    · subst h; rw [hbts]; exact ht0
    · have hai : a ≠ i := fun hc => hni (hc ▸ h)
      rw [restampBase_node_other q i a timestamp hai]
      exact hstamped a (hlsub.subset h)
  have hcommLe' : ∀ a ∈ bus1_queue_insert (restampBase q i timestamp) i
      (restampBase q i timestamp).msgs,
      ((restampBase q i timestamp).node a).timestamp % 2 = 0 →
      ((restampBase q i timestamp).node a).timestamp ≤ q.clock := by
    intro a ha hev
    rcases (mem_insert_iff _ i a _).mp ha with h | h
    · subst h; rw [hbts] at hev ⊢; omega
    · have hai : a ≠ i := fun hc => hni (hc ▸ h)
      rw [restampBase_node_other q i a timestamp hai] at hev ⊢
      exact hcommLe a (hlsub.subset h) hev
  have hclock2 : (restampBase q i timestamp).clock % 2 = 0 := by
    rw [restampBase_clock]; exact hclockEven
  have hcommLe2 : ∀ a ∈ bus1_queue_insert (restampBase q i timestamp) i
      (restampBase q i timestamp).msgs,
      ((restampBase q i timestamp).node a).timestamp % 2 = 0 →
      ((restampBase q i timestamp).node a).timestamp ≤
        (restampBase q i timestamp).clock := by
    rw [restampBase_clock]
    exact hcommLe'
  unfold addInsert
  dsimp only
  split_ifs with hif
  · refine ⟨hmnodup, hmsorted, ?_, hclock2, hstamped', hcommLe2⟩
    intro f hf
    have hf' : i = f := Option.some.inj hf
    subst hf'
    exact ⟨hif.2, hbts.symm ▸ hif.1⟩
  · refine ⟨hmnodup, hmsorted, ?_, hclock2, hstamped', hcommLe2⟩
    intro f hf
    have hf' : q.front = some f := by
      rw [← restampBase_front q i timestamp]; exact hf
    obtain ⟨hfi, hfeven, hlhead, hford⟩ := hfront f hf'
    have hfnode : (restampBase q i timestamp).node f = q.node f :=
      restampBase_node_other q i f timestamp hfi
    have hhead : (bus1_queue_insert (restampBase q i timestamp) i
        (restampBase q i timestamp).msgs).head? = some f := by
      by_cases ho : timestamp % 2 = 0
      · rcases insert_head_or (restampBase q i timestamp) i
            (restampBase q i timestamp).msgs with h | h
        · exact absurd ⟨ho, h⟩ hif
        · rw [h]; exact hlhead
      · refine insert_head_of_not_lt _ i f _ hlhead ?_
        have hord := hford (by omega)
        intro hc
        refine keyLt_irrefl_of_le hord ?_
        rw [hfnode] at hc
        refine (keyLt_congr ?_ ?_ rfl rfl).mp hc
        · rw [hbts]
        · exact restampBase_node_sender q i timestamp
    exact ⟨hhead, hfnode.symm ▸ hfeven⟩

/-- Invariant preservation of the `bus1_queue_add` worker, under the
parity discipline actually used by its callers: the new timestamp is even
(commit paths) or lies above the clock (stage path uses clock + 1). -/
theorem bus1_queue_add_inv (q : Queue) (i timestamp : Nat) (hq : QueueInv q)
    (hpar : timestamp % 2 = 0 ∨ q.clock < timestamp) :
    QueueInv (bus1_queue_add q i timestamp) := by
  unfold bus1_queue_add
  dsimp only
  split_ifs with g1 g2 g3 g4
  · exact hq
  · exact hq
  · exact hq
  · exact hq
  · push_neg at g1 g3
    obtain ⟨ht0, htle'⟩ := g1
    have htle : timestamp ≤ q.clock + 1 := by omega
    apply addWake_inv
    have hts_cases : (q.node i).timestamp = 0 ∨
        ((q.node i).timestamp % 2 = 1 ∧ (q.node i).timestamp ≤ timestamp) := by
      by_cases h0 : (q.node i).timestamp = 0
      · exact Or.inl h0
      · obtain ⟨hodd, hle⟩ := g3 h0
        exact Or.inr ⟨hodd, by omega⟩
    rcases addUncoverFront_cases q i timestamp with hA | ⟨hfn, k, rest, hmsgs, hkeven, hkLt, hB⟩
    · rw [hA]
      refine addInsert_inv q i timestamp hq.nodup hq.sorted ?_ hq.clockEven
        hq.stamped hq.committedLe ht0 htle
      intro f hf
      obtain ⟨hhead, hfeven⟩ := hq.frontOk f hf
      have hfmem : f ∈ q.msgs := mem_of_head? hhead
      have hfs0 : (q.node f).timestamp ≠ 0 := hq.stamped f hfmem
      have hfi : f ≠ i := by
        intro hc
        subst hc
        rcases hts_cases with h | h
        · exact hfs0 h
        · omega
      refine ⟨hfi, hfeven, ?_, ?_⟩
      · rw [restampBase_msgs]
        split_ifs with hm
        · exact head?_erase_of_ne q.msgs f i hhead hfi
        · exact hhead
      · intro hodd
        have hclt : q.clock < timestamp := by
          rcases hpar with h | h
          · omega
          · exact h
        have hfle := hq.committedLe f hfmem hfeven
        unfold keyLe
        left
        simpa using by omega
    · rw [hB]
      have hki : k ≠ i := by
        have := hq.nodup
        rw [hmsgs] at this
        rcases List.nodup_cons.mp this with ⟨hi, _⟩
        intro hc
        subst hc
        exact hi (List.mem_cons_self _ _)
      have himem : i ∈ q.msgs := by rw [hmsgs]; exact List.mem_cons_self _ _
      refine addInsert_inv { q with front := some k } i timestamp hq.nodup hq.sorted
        ?_ hq.clockEven hq.stamped hq.committedLe ht0 htle
      intro f hf
      have hfk : f = k := (Option.some.inj hf).symm
      subst hfk
      refine ⟨hki, hkeven, ?_, ?_⟩
      · rw [restampBase_msgs]
        have himem' : i ∈ ({ q with front := some f } : Queue).msgs := himem
        rw [if_pos himem']
        show (q.msgs.erase i).head? = some f
        rw [hmsgs, List.erase_cons_head]
        rfl
      · intro _
        exact keyLt_of_keyLt hkLt

theorem bus1_queue_sync_inv (q : Queue) (t : Nat) (hq : QueueInv q) :
    QueueInv (bus1_queue_sync q t).1 := by
  refine ⟨hq.nodup, hq.sorted, hq.frontOk, ?_, hq.stamped, ?_⟩
  · show (max q.clock (if t % 2 = 0 then t else t + 1)) % 2 = 0
    have := hq.clockEven
    split_ifs with h <;> omega
  · intro a ha hev
    show (q.node a).timestamp ≤ max q.clock _
    exact le_trans (hq.committedLe a ha hev) (le_max_left _ _)

theorem bus1_queue_tick_inv (q : Queue) (hq : QueueInv q) :
    QueueInv (bus1_queue_tick q).1 := by
  refine ⟨hq.nodup, hq.sorted, hq.frontOk, ?_, hq.stamped, ?_⟩
  · show (q.clock + 2) % 2 = 0
    have := hq.clockEven
    omega
  · intro a ha hev
    show (q.node a).timestamp ≤ q.clock + 2
    exact le_trans (hq.committedLe a ha hev) (by omega)

theorem bus1_queue_stage_inv (q : Queue) (i t : Nat) (hq : QueueInv q) :
    QueueInv (bus1_queue_stage q i t).1 := by
  unfold bus1_queue_stage
  dsimp only
  refine bus1_queue_add_inv _ i _ (bus1_queue_sync_inv q t hq) (Or.inr ?_)
  show max q.clock _ < max q.clock _ + 1
  omega

theorem bus1_queue_commit_staged_inv (q : Queue) (i t : Nat) (hq : QueueInv q)
    (heven : t % 2 = 0) : QueueInv (bus1_queue_commit_staged q i t).1 := by
  unfold bus1_queue_commit_staged
  split_ifs with h
  · exact bus1_queue_add_inv q i t hq (Or.inl heven)
  · exact hq

theorem bus1_queue_commit_unstaged_inv (q : Queue) (i : Nat) (hq : QueueInv q) :
    QueueInv (bus1_queue_commit_unstaged q i) := by
  unfold bus1_queue_commit_unstaged
  split_ifs with h
  · exact hq
  · refine bus1_queue_add_inv _ i _ (bus1_queue_tick_inv q hq) (Or.inl ?_)
    show (q.clock + 2) % 2 = 0
    have := hq.clockEven
    omega

theorem bus1_queue_flush_inv (q : Queue) (hq : QueueInv q) :
    QueueInv (bus1_queue_flush q).1 := by
  refine ⟨?_, ?_, ?_, hq.clockEven, ?_, ?_⟩
  · exact List.nodup_nil
  · exact List.Pairwise.nil
  · intro f hf
    exact Option.noConfusion hf
  · intro a ha
    exact absurd ha (List.not_mem_nil a)
  · intro a ha
    exact absurd ha (List.not_mem_nil a)

/-- Invariant for the post-erase state of `bus1_queue_remove`, stated on a
cleanly-shaped record: new message list `m`, new front `f`, queue reference
of the removed node dropped. -/
theorem remove_core_inv (q : Queue) (i : Nat) (m : List Nat) (f : Option Nat)
    (hnodup : m.Nodup)
    (hsorted : m.Pairwise (fun a b => keyLe (q.node a) (q.node b)))
    (hfront : ∀ g, f = some g → m.head? = some g ∧ (q.node g).timestamp % 2 = 0)
    (hclock : q.clock % 2 = 0)
    (hstamped : ∀ a ∈ m, (q.node a).timestamp ≠ 0)
    (hcomm : ∀ a ∈ m, (q.node a).timestamp % 2 = 0 → (q.node a).timestamp ≤ q.clock) :
    QueueInv ((({ q with msgs := m, front := f } : Queue)).dropRef i) := by
  have hts : ∀ a, (((({ q with msgs := m, front := f } : Queue)).dropRef i).node a).timestamp
      = (q.node a).timestamp := fun a =>
    dropRef_node_timestamp ({ q with msgs := m, front := f } : Queue) i a
  have hsd : ∀ a, (((({ q with msgs := m, front := f } : Queue)).dropRef i).node a).sender
      = (q.node a).sender := fun a =>
    dropRef_node_sender ({ q with msgs := m, front := f } : Queue) i a
  refine ⟨hnodup, ?_, ?_, hclock, ?_, ?_⟩
  · refine hsorted.imp_of_mem ?_
    intro x y hx hy hxy
    exact (keyLe_congr (hts x).symm (hsd x).symm (hts y).symm (hsd y).symm).mp hxy
  · intro g hg
    have hg' : f = some g := hg
    obtain ⟨hh, he⟩ := hfront g hg'
    refine ⟨hh, ?_⟩
    rw [hts g]
    exact he
  · intro a ha
    rw [hts a]
    exact hstamped a ha
  · intro a ha hev
    rw [hts a] at hev
    have := hcomm a ha hev
    rw [hts a]
    exact this

theorem bus1_queue_remove_inv (q : Queue) (n : Option Nat) (hq : QueueInv q) :
    QueueInv (bus1_queue_remove q n).1 := by
  match n with
  | none => exact hq
  | some i =>
      unfold bus1_queue_remove
      dsimp only
      split_ifs with hmem hhead
      · -- i is linked and is the first entry: front is recomputed
        refine addWake_inv _ _ ?_
        rcases hmsgs : q.msgs with _ | ⟨a, t⟩
        · rw [hmsgs] at hhead
          exact absurd hhead (by simp)
        · have hai : a = i := by
            rw [hmsgs] at hhead
            simpa using hhead
          subst hai
          have hsorted_t : t.Pairwise (fun x y => keyLe (q.node x) (q.node y)) := by
            have := hq.sorted
            rw [hmsgs] at this
            exact (List.pairwise_cons.mp this).2
          have hnodup_t : t.Nodup := by
            have := hq.nodup
            rw [hmsgs] at this
            exact (List.nodup_cons.mp this).2
          have hsub_t : ∀ b ∈ t, b ∈ q.msgs := by
            intro b hb
            rw [hmsgs]
            exact List.mem_cons_of_mem a hb
          rcases t with _ | ⟨k, rest⟩
          · -- singleton: front becomes null
            dsimp only
            rw [List.erase_cons_head]
            refine remove_core_inv q a [] none List.nodup_nil List.Pairwise.nil
              ?_ hq.clockEven ?_ ?_
            · intro g hg
              exact Option.noConfusion hg
            · intro b hb
              exact absurd hb (List.not_mem_nil b)
            · intro b hb
              exact absurd hb (List.not_mem_nil b)
          · -- at least two entries: successor decides the new front
            dsimp only
            rw [List.erase_cons_head]
            split_ifs with hst
            · refine remove_core_inv q a (k :: rest) none hnodup_t hsorted_t
                ?_ hq.clockEven ?_ ?_
              · intro g hg
                exact Option.noConfusion hg
              · intro b hb
                exact hq.stamped b (hsub_t b hb)
              · intro b hb
                exact hq.committedLe b (hsub_t b hb)
            · refine remove_core_inv q a (k :: rest) (some k) hnodup_t hsorted_t
                ?_ hq.clockEven ?_ ?_
              · intro g hg
                have hgk : k = g := Option.some.inj hg
                subst hgk
                refine ⟨rfl, ?_⟩
                unfold bus1_queue_node_is_staging at hst
                omega
              · intro b hb
                exact hq.stamped b (hsub_t b hb)
              · intro b hb
                exact hq.committedLe b (hsub_t b hb)
      · -- i is linked but not first: front untouched
        refine addWake_inv _ _ ?_
        have herase_sub : (q.msgs.erase i).Sublist q.msgs := q.msgs.erase_sublist i
        refine remove_core_inv q i (q.msgs.erase i) q.front (hq.nodup.erase i)
          (hq.sorted.sublist herase_sub) ?_ hq.clockEven ?_ ?_
        · intro g hg
          obtain ⟨hhd, hev⟩ := hq.frontOk g hg
          have hgi : g ≠ i := by
            intro hc
            subst hc
            exact hhead hhd
          exact ⟨head?_erase_of_ne q.msgs g i hhd hgi, hev⟩
        · intro b hb
          exact hq.stamped b (herase_sub.subset hb)
        · intro b hb
          exact hq.committedLe b (herase_sub.subset hb)
      · exact hq

theorem addInsert_node_ts_self (q : Queue) (i t : Nat) :
    ((addInsert q i t).node i).timestamp = t := by
  unfold addInsert
  dsimp only
  split_ifs <;> exact restampBase_node_ts q i t

theorem addInsert_node_other (q : Queue) (i t a : Nat) (h : a ≠ i) :
    (addInsert q i t).node a = q.node a := by
  unfold addInsert
  dsimp only
  split_ifs <;> exact restampBase_node_other q i a t h

theorem addInsert_clock (q : Queue) (i t : Nat) :
    (addInsert q i t).clock = q.clock := by
  unfold addInsert
  dsimp only
  split_ifs <;> exact restampBase_clock q i t

/-- A node's timestamp can only grow through `bus1_queue_add`, and other
nodes are untouched. -/
theorem bus1_queue_add_ts_mono (q : Queue) (i timestamp a : Nat) :
    (q.node a).timestamp ≤ ((bus1_queue_add q i timestamp).node a).timestamp := by
  unfold bus1_queue_add
  dsimp only
  split_ifs with g1 g2 g3 g4
  · exact le_refl _
  · exact le_refl _
  · exact le_refl _
  · exact le_refl _
  · push_neg at g3
    rw [addWake_node]
    by_cases hai : a = i
    · subst hai
      rw [addInsert_node_ts_self]
      by_cases h0 : (q.node a).timestamp = 0
      · omega
      · obtain ⟨_, hle⟩ := g3 h0
        omega
    · rw [addInsert_node_other _ i timestamp a hai, addUncoverFront_node]

theorem foldl_dropRefs_timestamp (l : List Nat) (ns : List (Nat × Node)) (a : Nat) :
    (lookupNode (l.foldl (fun acc i =>
        updateNode acc i (fun n => { n with ref := n.ref - 1 })) ns) a).timestamp
      = (lookupNode ns a).timestamp := by
  induction l generalizing ns with
  | nil => rfl
  | cons j t ih =>
      rw [List.foldl_cons, ih]
      by_cases h : a = j
      · subst h; rw [lookupNode_updateNode_self]
      · rw [lookupNode_updateNode_other _ _ _ _ h]

theorem foldl_dropRefs_ref (l : List Nat) (ns : List (Nat × Node)) (a : Nat)
    (hnd : l.Nodup) :
    (lookupNode (l.foldl (fun acc i =>
        updateNode acc i (fun n => { n with ref := n.ref - 1 })) ns) a).ref
      = if a ∈ l then (lookupNode ns a).ref - 1 else (lookupNode ns a).ref := by
  induction l generalizing ns with
  | nil => simp
  | cons j t ih =>
      obtain ⟨hj, ht⟩ := List.nodup_cons.mp hnd
      rw [List.foldl_cons, ih _ ht]
      by_cases h : a = j
      · subst h
        rw [if_neg hj, if_pos (List.mem_cons_self _ _), lookupNode_updateNode_self]
      · rw [lookupNode_updateNode_other _ _ _ _ h]
        by_cases hat : a ∈ t
        · rw [if_pos hat, if_pos (List.mem_cons_of_mem _ hat)]
        · rw [if_neg hat, if_neg (by simp [h, hat])]

/-- Every queue operation leaves every node's timestamp no smaller than it
was before the operation. -/
theorem applyQOp_ts_mono (q : Queue) (op : QOp) (a : Nat) :
    (q.node a).timestamp ≤ ((applyQOp q op).node a).timestamp := by
  cases op with
  | stage i ts =>
      exact bus1_queue_add_ts_mono (bus1_queue_sync q ts).1 i _ a
  | commitStaged i ts =>
      unfold applyQOp bus1_queue_commit_staged
      dsimp only
      split_ifs with h
      · exact bus1_queue_add_ts_mono q i ts a
      · exact le_refl _
  | commitUnstaged i =>
      unfold applyQOp bus1_queue_commit_unstaged
      dsimp only
      split_ifs with h
      · exact le_refl _
      · exact bus1_queue_add_ts_mono (bus1_queue_tick q).1 i _ a
  | remove n =>
      match n with
      | none => exact le_refl _
      | some i =>
          unfold applyQOp bus1_queue_remove
          dsimp only
          split_ifs with hmem hhead
          · rw [addWake_node, dropRef_node_timestamp]
            exact le_refl _
          · rw [addWake_node, dropRef_node_timestamp]
            exact le_refl _
          · exact le_refl _
  | flush =>
      unfold applyQOp bus1_queue_flush
      dsimp only
      show (q.node a).timestamp ≤ (lookupNode _ a).timestamp
      rw [foldl_dropRefs_timestamp]
      exact le_refl _

/-- Invariant preservation for every queue operation, given the documented
even-timestamp precondition of `commit_staged`. -/
theorem applyQOp_inv (q : Queue) (op : QOp) (hq : QueueInv q) (hpre : QOpPre op) :
    QueueInv (applyQOp q op) := by
  cases op with
  | stage i ts => exact bus1_queue_stage_inv q i ts hq
  | commitStaged i ts => exact bus1_queue_commit_staged_inv q i ts hq hpre
  | commitUnstaged i => exact bus1_queue_commit_unstaged_inv q i hq
  | remove n => exact bus1_queue_remove_inv q n hq
  | flush => exact bus1_queue_flush_inv q hq

/-- On a well-formed queue, a non-null front is a committed minimum of the
message tree. -/
theorem front_is_min (q : Queue) (h : QueueInv q) (f : Nat) (hf : q.front = some f) :
    f ∈ q.msgs ∧ (q.node f).timestamp % 2 = 0 ∧
      ∀ j ∈ q.msgs, keyLe (q.node f) (q.node j) := by
  obtain ⟨hh, he⟩ := h.frontOk f hf
  refine ⟨mem_of_head? hh, he, ?_⟩
  intro j hj
  rcases hm : q.msgs with _ | ⟨a, t⟩
  · rw [hm] at hj
    exact absurd hj (List.not_mem_nil j)
  · have haf : a = f := by
      rw [hm] at hh
      simpa using hh
    subst haf
    rw [hm] at hj
    rcases List.mem_cons.mp hj with hj | hj
    · subst hj
      exact keyLe_refl _
    · have := h.sorted
      rw [hm] at this
      exact (List.pairwise_cons.mp this).1 j hj

theorem addInsert_mem_self (q : Queue) (i t : Nat) : i ∈ (addInsert q i t).msgs := by
  unfold addInsert
  dsimp only
  split_ifs
  · show i ∈ bus1_queue_insert _ i _
    exact (mem_insert_iff _ _ _ _).mpr (Or.inl rfl)
  · show i ∈ bus1_queue_insert _ i _
    exact (mem_insert_iff _ _ _ _).mpr (Or.inl rfl)

/-- On an unlinked, unstamped node with a valid timestamp, `bus1_queue_add`
takes its main path. -/
theorem bus1_queue_add_fresh (q : Queue) (i timestamp : Nat)
    (hts0 : (q.node i).timestamp = 0) (hni : i ∉ q.msgs)
    (h0 : timestamp ≠ 0) (hle : timestamp ≤ q.clock + 1) :
    bus1_queue_add q i timestamp =
      addWake (bus1_queue_is_readable q)
        (addInsert (addUncoverFront q i timestamp) i timestamp) := by
  unfold bus1_queue_add
  dsimp only
  rw [if_neg (by omega : ¬ (timestamp = 0 ∨ q.clock + 1 < timestamp)),
      if_neg (by simp [hts0, hni]),
      if_neg (by simp [hts0]),
      if_neg (by omega : ¬ (q.node i).timestamp = timestamp)]

/-- On a linked staged node with a valid higher timestamp, `bus1_queue_add`
takes its main path. -/
theorem bus1_queue_add_staged (q : Queue) (i timestamp : Nat)
    (hodd : (q.node i).timestamp % 2 = 1) (hmem : i ∈ q.msgs)
    (hle : (q.node i).timestamp ≤ timestamp)
    (hne : (q.node i).timestamp ≠ timestamp)
    (_h0 : timestamp ≠ 0) (hcl : timestamp ≤ q.clock + 1) :
    bus1_queue_add q i timestamp =
      addWake (bus1_queue_is_readable q)
        (addInsert (addUncoverFront q i timestamp) i timestamp) := by
  unfold bus1_queue_add
  dsimp only
  rw [if_neg (by omega : ¬ (timestamp = 0 ∨ q.clock + 1 < timestamp)),
      if_neg (by simp [hmem]; omega),
      if_neg (by simp [hodd]; omega),
      if_neg hne]

/-- C1 (amended): after any queue operation on a well-formed queue (with
the documented even-timestamp precondition of commit_staged), a non-null
front points to the committed minimum of messages — in particular a staged
node is never the front — and well-formedness is preserved.  The converse
direction of the original claim (front non-null whenever the minimum is
committed) is refuted by `bus1_spec_c1_counterexample`. -/
theorem bus1_spec_c1 (q : Queue) (op : QOp) (hq : QueueInv q) (hpre : QOpPre op) :
    QueueInv (applyQOp q op) ∧
    ∀ f, (applyQOp q op).front = some f →
      f ∈ (applyQOp q op).msgs ∧
      ((applyQOp q op).node f).timestamp % 2 = 0 ∧
      ∀ j ∈ (applyQOp q op).msgs,
        keyLe ((applyQOp q op).node f) ((applyQOp q op).node j) := by
  have h := applyQOp_inv q op hq hpre
  exact ⟨h, fun f hf => front_is_min _ h f hf⟩

/-- Witness for C1 at a concrete queue and operation. -/
theorem bus1_spec_c1_witness :
    QueueInv (applyQOp ⟨0, [], none, [(1, ⟨0, 7, 1⟩)], 0⟩ (QOp.stage 1 0)) :=
  (bus1_spec_c1 ⟨0, [], none, [(1, ⟨0, 7, 1⟩)], 0⟩ (QOp.stage 1 0)
    ⟨List.nodup_nil, List.Pairwise.nil, fun _ hf => Option.noConfusion hf, rfl,
     fun a ha => absurd ha (List.not_mem_nil a),
     fun a ha _ => absurd ha (List.not_mem_nil a)⟩ trivial).1

/-- Counterexample to C1 as stated: a multicast transaction stages two
nodes of the same sender on one queue and commits both at the same even
timestamp; after the final commit both messages are committed (so the
minimum of messages exists and is committed) yet the front is null and a
reader peeks nothing. -/
theorem bus1_spec_c1_counterexample :
    (applyQOps (bus1_queue_sync
        (applyQOps ⟨0, [], none, [(1, ⟨0, 7, 1⟩), (2, ⟨0, 7, 1⟩)], 0⟩
          [QOp.stage 1 4, QOp.stage 2 4]) 6).1
        [QOp.commitStaged 1 6, QOp.commitStaged 2 6]).front = none ∧
    (applyQOps (bus1_queue_sync
        (applyQOps ⟨0, [], none, [(1, ⟨0, 7, 1⟩), (2, ⟨0, 7, 1⟩)], 0⟩
          [QOp.stage 1 4, QOp.stage 2 4]) 6).1
        [QOp.commitStaged 1 6, QOp.commitStaged 2 6]).msgs = [1, 2] ∧
    (∀ j ∈ (applyQOps (bus1_queue_sync
        (applyQOps ⟨0, [], none, [(1, ⟨0, 7, 1⟩), (2, ⟨0, 7, 1⟩)], 0⟩
          [QOp.stage 1 4, QOp.stage 2 4]) 6).1
        [QOp.commitStaged 1 6, QOp.commitStaged 2 6]).msgs,
      ((applyQOps (bus1_queue_sync
        (applyQOps ⟨0, [], none, [(1, ⟨0, 7, 1⟩), (2, ⟨0, 7, 1⟩)], 0⟩
          [QOp.stage 1 4, QOp.stage 2 4]) 6).1
        [QOp.commitStaged 1 6, QOp.commitStaged 2 6]).node j).timestamp % 2 = 0) ∧
    (bus1_queue_peek_locked (applyQOps (bus1_queue_sync
        (applyQOps ⟨0, [], none, [(1, ⟨0, 7, 1⟩), (2, ⟨0, 7, 1⟩)], 0⟩
          [QOp.stage 1 4, QOp.stage 2 4]) 6).1
        [QOp.commitStaged 1 6, QOp.commitStaged 2 6]) false).1 = none := by
  decide

/-- C5: over any sequence of queue operations, a node's timestamp never
decreases. -/
theorem bus1_spec_c5 (q : Queue) (ops : List QOp) (a : Nat) :
    (q.node a).timestamp ≤ ((applyQOps q ops).node a).timestamp := by
  induction ops generalizing q with
  | nil => exact le_refl _
  | cons op t ih => exact le_trans (applyQOp_ts_mono q op a) (ih (applyQOp q op))

/-- C9: removing a null node, like removing an unlinked node, returns false
and leaves the whole queue state (front, messages, store, wake counter)
untouched. -/
theorem bus1_spec_c9 (q : Queue) :
    bus1_queue_remove q none = (q, false) ∧
    ∀ i, i ∉ q.msgs → bus1_queue_remove q (some i) = (q, false) := by
  refine ⟨rfl, ?_⟩
  intro i hi
  unfold bus1_queue_remove
  dsimp only
  rw [if_neg hi]

/-- Witness for C9 at a concrete queue and unlinked node. -/
theorem bus1_spec_c9_witness :
    bus1_queue_remove ⟨4, [1], some 1, [(1, ⟨2, 0, 1⟩)], 0⟩ (some 5) =
      (⟨4, [1], some 1, [(1, ⟨2, 0, 1⟩)], 0⟩, false) :=
  (bus1_spec_c9 ⟨4, [1], some 1, [(1, ⟨2, 0, 1⟩)], 0⟩).2 5 (by decide)

/-- C3: staging an unlinked node with an even minimum timestamp first syncs
the clock to `max clock min_ts`, links the node at the odd stage timestamp
`clock + 1`, and returns the even synced clock; staging at the current
clock returns the current clock. -/
theorem bus1_spec_c3 (q : Queue) (i min_ts : Nat)
    (hunlinked : i ∉ q.msgs) (hts0 : (q.node i).timestamp = 0)
    (heven : min_ts % 2 = 0) (hclock : q.clock % 2 = 0) :
    (bus1_queue_stage q i min_ts).2 = max q.clock min_ts ∧
    (bus1_queue_stage q i min_ts).1.clock = max q.clock min_ts ∧
    ((bus1_queue_stage q i min_ts).1.node i).timestamp = max q.clock min_ts + 1 ∧
    ((bus1_queue_stage q i min_ts).1.node i).timestamp % 2 = 1 ∧
    i ∈ (bus1_queue_stage q i min_ts).1.msgs ∧
    (min_ts = q.clock → (bus1_queue_stage q i min_ts).2 = q.clock) := by
  have hsync : bus1_queue_sync q min_ts =
      ({ q with clock := max q.clock min_ts }, max q.clock min_ts) := by
    unfold bus1_queue_sync
    dsimp only
    rw [if_pos heven]
  have hstage : bus1_queue_stage q i min_ts =
      (bus1_queue_add ({ q with clock := max q.clock min_ts } : Queue) i
        (max q.clock min_ts + 1), max q.clock min_ts) := by
    unfold bus1_queue_stage
    rw [hsync]
  rw [hstage]
  have hadd := bus1_queue_add_fresh ({ q with clock := max q.clock min_ts } : Queue) i
    (max q.clock min_ts + 1) hts0 hunlinked (by omega) (Nat.le_refl _)
  rw [hadd]
  refine ⟨rfl, ?_, ?_, ?_, ?_, ?_⟩
  · rw [addWake_clock, addInsert_clock, addUncoverFront_clock]
  · rw [addWake_node, addInsert_node_ts_self]
  · rw [addWake_node, addInsert_node_ts_self]
    omega
  · rw [addWake_msgs]
    exact addInsert_mem_self _ i _
  · intro h
    rw [h, max_self]

/-- Witness for C3 at a concrete queue, staging at the current clock. -/
theorem bus1_spec_c3_witness :
    (bus1_queue_stage ⟨4, [], none, [(1, ⟨0, 7, 1⟩)], 0⟩ 1 4).2 = 4 ∧
    ((bus1_queue_stage ⟨4, [], none, [(1, ⟨0, 7, 1⟩)], 0⟩ 1 4).1.node 1).timestamp = 5 := by
  have h := bus1_spec_c3 ⟨4, [], none, [(1, ⟨0, 7, 1⟩)], 0⟩ 1 4
    (by decide) (by decide) (by decide) (by decide)
  exact ⟨h.2.2.2.2.2 rfl, h.2.2.1⟩

/-- C2: committing a staged node at an even timestamp fails and changes
nothing when the node is no longer linked (for instance after a flush, when
also nothing can be peeked), and otherwise re-stamps it to the commit
timestamp, keeps the tree sorted, and reports success. -/
theorem bus1_spec_c2 (q : Queue) (i ts : Nat) (hq : QueueInv q) (heven : ts % 2 = 0) :
    (i ∉ q.msgs → bus1_queue_commit_staged q i ts = (q, false)) ∧
    (i ∈ q.msgs → (q.node i).timestamp % 2 = 1 → (q.node i).timestamp ≤ ts →
      0 < ts → ts ≤ q.clock →
      (bus1_queue_commit_staged q i ts).2 = true ∧
      ((bus1_queue_commit_staged q i ts).1.node i).timestamp = ts ∧
      i ∈ (bus1_queue_commit_staged q i ts).1.msgs ∧
      (bus1_queue_commit_staged q i ts).1.msgs.Pairwise
        (fun a b => keyLe ((bus1_queue_commit_staged q i ts).1.node a)
                          ((bus1_queue_commit_staged q i ts).1.node b))) ∧
    (bus1_queue_commit_staged (bus1_queue_flush q).1 i ts =
      ((bus1_queue_flush q).1, false) ∧
     (bus1_queue_peek_locked (bus1_queue_flush q).1 false).1 = none) := by
  refine ⟨?_, ?_, ?_, ?_⟩
  · intro hni
    unfold bus1_queue_commit_staged
    rw [if_neg (show ¬ bus1_queue_node_is_queued q i from hni)]
  · intro hmem hodd hle h0 hcl
    have hcommit : bus1_queue_commit_staged q i ts = (bus1_queue_add q i ts, true) := by
      unfold bus1_queue_commit_staged
      rw [if_pos (show bus1_queue_node_is_queued q i from hmem)]
    have hinv := bus1_queue_commit_staged_inv q i ts hq heven
    rw [hcommit] at hinv ⊢
    have hadd := bus1_queue_add_staged q i ts hodd hmem hle (by omega) (by omega) (by omega)
    refine ⟨rfl, ?_, ?_, ?_⟩
    · rw [hadd, addWake_node, addInsert_node_ts_self]
    · rw [hadd, addWake_msgs]
      exact addInsert_mem_self _ i _
    · exact hinv.sorted
  · unfold bus1_queue_commit_staged
    rw [if_neg (show ¬ bus1_queue_node_is_queued (bus1_queue_flush q).1 i from
      fun h => List.not_mem_nil i h)]
  · rfl

/-- Witness for C2 at a concrete queue holding one staged node. -/
theorem bus1_spec_c2_witness :
    (bus1_queue_commit_staged ⟨6, [1], none, [(1, ⟨5, 7, 2⟩)], 0⟩ 1 6).2 = true ∧
    ((bus1_queue_commit_staged ⟨6, [1], none, [(1, ⟨5, 7, 2⟩)], 0⟩ 1 6).1.node 1).timestamp
      = 6 := by
  have h := (bus1_spec_c2 ⟨6, [1], none, [(1, ⟨5, 7, 2⟩)], 0⟩ 1 6
    ⟨by decide, by decide, fun _ hf => Option.noConfusion hf, rfl, by decide, by decide⟩
    rfl).2.1 (by decide) (by decide) (by decide) (by decide) (by decide)
  exact ⟨h.1, h.2.1⟩

theorem flush_node_timestamp (q : Queue) (a : Nat) :
    ((bus1_queue_flush q).1.node a).timestamp = (q.node a).timestamp := by
  show (lookupNode ((q.msgs.filter fun i => decide (bus1_queue_node_is_staging q i)).foldl
      (fun ns i => updateNode ns i fun n => { n with ref := n.ref - 1 }) q.nodes) a).timestamp
    = (q.node a).timestamp
  rw [foldl_dropRefs_timestamp]
  rfl

theorem flush_node_ref (q : Queue) (hnd : q.msgs.Nodup) (a : Nat) :
    ((bus1_queue_flush q).1.node a).ref =
      if a ∈ q.msgs ∧ (q.node a).timestamp % 2 = 1 then (q.node a).ref - 1
      else (q.node a).ref := by
  show (lookupNode ((q.msgs.filter fun i => decide (bus1_queue_node_is_staging q i)).foldl
      (fun ns i => updateNode ns i fun n => { n with ref := n.ref - 1 }) q.nodes) a).ref = _
  rw [foldl_dropRefs_ref _ _ _ (hnd.filter _)]
  by_cases h : a ∈ q.msgs.filter fun i => decide (bus1_queue_node_is_staging q i)
  · rw [if_pos h]
    rcases List.mem_filter.mp h with ⟨hm, hs⟩
    rw [decide_eq_true_eq] at hs
    rw [if_pos ⟨hm, hs⟩]
    rfl
  · rw [if_neg h]
    rw [if_neg (fun hc => h (List.mem_filter.mpr ⟨hc.1, decide_eq_true hc.2⟩))]
    rfl

/-- C4: after a flush the queue is empty with a null front; every node that
was staged is absent from the output list and lost the queue's reference;
every committed node appears exactly once in the output list with its
reference intact (transferred to the caller); and the output list holds
only nodes that were committed messages. -/
theorem bus1_spec_c4 (q : Queue) (hnd : q.msgs.Nodup) :
    (bus1_queue_flush q).1.msgs = [] ∧
    (bus1_queue_flush q).1.front = none ∧
    (∀ i ∈ q.msgs, (q.node i).timestamp % 2 = 1 →
      i ∉ (bus1_queue_flush q).2 ∧
      ((bus1_queue_flush q).1.node i).ref = (q.node i).ref - 1) ∧
    (∀ i ∈ q.msgs, (q.node i).timestamp % 2 = 0 →
      (bus1_queue_flush q).2.count i = 1 ∧
      ((bus1_queue_flush q).1.node i).ref = (q.node i).ref) ∧
    (∀ i ∈ (bus1_queue_flush q).2, i ∈ q.msgs ∧ (q.node i).timestamp % 2 = 0) := by
  have hout : (bus1_queue_flush q).2 =
      q.msgs.filter (fun i => decide (¬ bus1_queue_node_is_staging q i)) := rfl
  refine ⟨rfl, rfl, ?_, ?_, ?_⟩
  · intro i hm hstg
    constructor
    · rw [hout]
      intro hc
      rcases List.mem_filter.mp hc with ⟨_, hs⟩
      rw [decide_eq_true_eq] at hs
      exact hs hstg
    · rw [flush_node_ref q hnd i, if_pos ⟨hm, hstg⟩]
  · intro i hm hcomm
    have hstg : ¬ bus1_queue_node_is_staging q i := by
      unfold bus1_queue_node_is_staging
      omega
    constructor
    · rw [hout]
      have hmem : i ∈ q.msgs.filter (fun i => decide (¬ bus1_queue_node_is_staging q i)) :=
        List.mem_filter.mpr ⟨hm, decide_eq_true hstg⟩
      exact List.count_eq_one_of_mem (hnd.filter _) hmem
    · rw [flush_node_ref q hnd i, if_neg (fun hc => hstg hc.2)]
  · intro i hm
    rw [hout] at hm
    rcases List.mem_filter.mp hm with ⟨h1, h2⟩
    rw [decide_eq_true_eq] at h2
    refine ⟨h1, ?_⟩
    unfold bus1_queue_node_is_staging at h2
    omega

/-- Witness for C4 at a concrete queue holding one committed and one staged
node. -/
theorem bus1_spec_c4_witness :
    (bus1_queue_flush ⟨4, [1, 2], some 1, [(1, ⟨2, 3, 1⟩), (2, ⟨5, 3, 2⟩)], 0⟩).2.count 1
      = 1 ∧
    ((bus1_queue_flush ⟨4, [1, 2], some 1,
      [(1, ⟨2, 3, 1⟩), (2, ⟨5, 3, 2⟩)], 0⟩).1.node 2).ref = 1 := by
  have h := bus1_spec_c4 ⟨4, [1, 2], some 1, [(1, ⟨2, 3, 1⟩), (2, ⟨5, 3, 2⟩)], 0⟩ (by decide)
  exact ⟨(h.2.2.2.1 1 (by decide) (by decide)).1,
         (h.2.2.1 2 (by decide) (by decide)).2⟩

/-- C6: peeking a queue with a null front returns null and leaves both the
continuation slot and the queue untouched; otherwise it returns the front
node with one extra reference, leaves the queue structure (messages, front,
clock, every other node) unmodified, and reports continuation exactly when
the next entry of messages carries the same (timestamp, sender) key. -/
theorem bus1_spec_c6 (q : Queue) (c : Bool) :
    (q.front = none → bus1_queue_peek_locked q c = (none, c, q)) ∧
    (∀ f, q.front = some f →
      (bus1_queue_peek_locked q c).1 = some f ∧
      (bus1_queue_peek_locked q c).2.2.msgs = q.msgs ∧
      (bus1_queue_peek_locked q c).2.2.front = q.front ∧
      (bus1_queue_peek_locked q c).2.2.clock = q.clock ∧
      ((bus1_queue_peek_locked q c).2.2.node f).ref = (q.node f).ref + 1 ∧
      (∀ j, j ≠ f → (bus1_queue_peek_locked q c).2.2.node j = q.node j) ∧
      ((bus1_queue_peek_locked q c).2.1 = true ↔
        ∃ j, listNext q.msgs f = some j ∧
          (q.node j).timestamp = (q.node f).timestamp ∧
          (q.node j).sender = (q.node f).sender)) := by
  constructor
  · intro h
    unfold bus1_queue_peek_locked
    rw [h]
  · intro f hf
    unfold bus1_queue_peek_locked
    rw [hf]
    dsimp only
    refine ⟨rfl, rfl, ?_, rfl, ?_, ?_, ?_⟩
    · exact hf
    · rw [addRef_node_self]
    · intro j hj
      exact addRef_node_other q f j hj
    · have hmsgs : (q.addRef f).msgs = q.msgs := rfl
      rw [hmsgs]
      cases hn : listNext q.msgs f with
      | none =>
          simp only [hn]
          constructor
          · intro hc
            exact absurd hc (by simp)
          · rintro ⟨j, hj, _⟩
            exact Option.noConfusion hj
      | some j =>
          simp only [hn]
          rw [decide_eq_true_eq, node_compare_eq_zero_iff]
          rw [addRef_node_timestamp, addRef_node_timestamp,
              addRef_node_sender, addRef_node_sender]
          constructor
          · intro ⟨h1, h2⟩
            exact ⟨j, rfl, h1.symm, h2.symm⟩
          · rintro ⟨j', hj', h1, h2⟩
            have hjj : j = j' := Option.some.inj hj'
            subst hjj
            exact ⟨h1.symm, h2.symm⟩

/-- Witness for C6 at a concrete queue whose front has a same-key
successor. -/
theorem bus1_spec_c6_witness :
    (bus1_queue_peek_locked ⟨4, [1, 2], some 1,
      [(1, ⟨2, 3, 1⟩), (2, ⟨2, 3, 1⟩)], 0⟩ false).1 = some 1 ∧
    (bus1_queue_peek_locked ⟨4, [1, 2], some 1,
      [(1, ⟨2, 3, 1⟩), (2, ⟨2, 3, 1⟩)], 0⟩ false).2.1 = true := by
  have h := (bus1_spec_c6 ⟨4, [1, 2], some 1,
    [(1, ⟨2, 3, 1⟩), (2, ⟨2, 3, 1⟩)], 0⟩ false).2 1 rfl
  exact ⟨h.1, h.2.2.2.2.2.2.mpr ⟨2, by decide, by decide, by decide⟩⟩

/-- C7 evaluated at the failing input: connecting a fresh peer with
CLIENT and QUERY both set (two modes, which the claim and the code's own
comment say must be rejected as invalid-argument) instead performs a
successful client-mode connect, because the mode-count check sums only
client, monitor and reset. -/
theorem bus1_spec_c7_bug :
    (bus1_peer_connect ⟨ActiveState.fresh, none⟩
      ⟨⟨true, false, true, false, false⟩, 4096⟩).1 = Errno.ok ∧
    (bus1_peer_connect ⟨ActiveState.fresh, none⟩
      ⟨⟨true, false, true, false, false⟩, 4096⟩).2.1.active = ActiveState.active ∧
    Errno.ok ≠ Errno.einval := by
  decide

/-- Counterexample to C8 as stated: a send whose vector count exceeds
BUS1_VEC_MAX fails with message-too-long (EMSGSIZE), not with
invalid-argument (EINVAL). -/
theorem bus1_spec_c8_counterexample :
    bus1_peer_ioctl_send_check ⟨false, false, false, false, 513, 0, 1, true⟩ =
      some Errno.emsgsize ∧
    Errno.emsgsize ≠ Errno.einval := by
  decide

/-- C8 (amended): a send whose vector count exceeds BUS1_VEC_MAX or whose
file-descriptor count exceeds BUS1_FD_MAX, and whose flags are otherwise
valid, fails with the message-too-long error before staging or committing
anything — the destination queue is returned unchanged. -/
theorem bus1_spec_c8 (q : Queue) (p : SendParam) (dest : Nat)
    (hflags : p.flagOther = false)
    (hsize : BUS1_VEC_MAX < p.n_vecs ∨ BUS1_FD_MAX < p.n_fds) :
    bus1_peer_ioctl_send q p dest = (Errno.emsgsize, q) := by
  have hc : bus1_peer_ioctl_send_check p = some Errno.emsgsize := by
    unfold bus1_peer_ioctl_send_check
    rw [if_neg (by simp [hflags]), if_pos hsize]
  unfold bus1_peer_ioctl_send
  rw [hc]

/-- Witness for C8 at a concrete oversized send. -/
theorem bus1_spec_c8_witness :
    bus1_peer_ioctl_send ⟨0, [], none, [], 0⟩
      ⟨false, false, false, false, 0, 257, 1, true⟩ 1 =
      (Errno.emsgsize, ⟨0, [], none, [], 0⟩) :=
  bus1_spec_c8 ⟨0, [], none, [], 0⟩ ⟨false, false, false, false, 0, 257, 1, true⟩ 1
    rfl (by decide)

/-- C10: a reset-mode connect on a connected peer (which must pass
pool_size = 0) succeeds, writes the peer's current pool size into the
caller's pool-size parameter — the same value a query-mode connect
reports — and drains the queue while preserving the pool size. -/
theorem bus1_spec_c10 (a : ActiveState) (pi : PeerInfo)
    (hact : a = ActiveState.active) :
    (bus1_peer_connect ⟨a, some pi⟩ ⟨⟨false, false, false, true, false⟩, 0⟩).1 =
      Errno.ok ∧
    (bus1_peer_connect ⟨a, some pi⟩ ⟨⟨false, false, false, true, false⟩, 0⟩).2.2 =
      pi.pool.size ∧
    (bus1_peer_connect ⟨a, some pi⟩ ⟨⟨false, false, false, true, false⟩, 0⟩).2.2 =
      (bus1_peer_connect ⟨a, some pi⟩ ⟨⟨false, false, true, false, false⟩, 0⟩).2.2 ∧
    (bus1_peer_connect ⟨a, some pi⟩ ⟨⟨false, false, false, true, false⟩, 0⟩).2.1.info =
      some (bus1_peer_info_reset pi) ∧
    (bus1_peer_info_reset pi).queue.msgs = [] ∧
    (bus1_peer_info_reset pi).queue.front = none ∧
    (bus1_peer_info_reset pi).pool.size = pi.pool.size := by
  subst hact
  exact ⟨rfl, rfl, rfl, rfl, rfl, rfl, rfl⟩

/-- Witness for C10 at a concrete connected peer. -/
theorem bus1_spec_c10_witness :
    (bus1_peer_connect ⟨ActiveState.active, some ⟨⟨8192, 3⟩, ⟨0, [], none, [], 0⟩⟩⟩
      ⟨⟨false, false, false, true, false⟩, 0⟩).2.2 = 8192 :=
  (bus1_spec_c10 ActiveState.active ⟨⟨8192, 3⟩, ⟨0, [], none, [], 0⟩⟩ rfl).2.1
